import Mathlib

/-!
Verification development for the Salamander arbitrage backend.

The JavaScript source is shallowly embedded: JS numbers are modelled as
exact rationals, JS objects as structures, insertion-ordered `Map`s as
association lists, insertion-ordered `Set`s as duplicate-free lists, and
fallible async fetches as `Except` values.  Impure fields that no claim
depends on (`timestamp: Date.now()`) are omitted.  JS truthiness tests on
numbers and strings (`0`, `''`, `null`/`undefined` are falsy) are modelled
explicitly by the helpers below.
-/

namespace Arb

/-- JS `x || d` for an optional number: falsy (absent or zero) falls back. -/
def qOr (o : Option ℚ) (d : ℚ) : ℚ :=
  match o with
  | some v => if v = 0 then d else v
  | none => d

/-- JS `x || null` for an optional number: a zero value collapses to null. -/
def qOrNull (o : Option ℚ) : Option ℚ :=
  match o with
  | some v => if v = 0 then none else some v
  | none => none

/-- JS `s || d` for an optional string: falsy (absent or empty) falls back. -/
def sOr (o : Option String) (d : String) : String :=
  match o with
  | some s => if s = "" then d else s
  | none => d

/-- JS truthiness of an optional number. -/
def qTruthy (o : Option ℚ) : Bool :=
  match o with
  | some v => v != 0
  | none => false

/-- JS `s.toUpperCase()`, written character-wise over the underlying list so
that it reduces definitionally (the library `String.toUpper` is defined by
recursion on byte positions). -/
def upperString (s : String) : String :=
  ⟨s.data.map Char.toUpper⟩

/-- JS `symbol.split('/').length`.  For the single-character separator this
is one more than the number of `/` characters in the string; stated this
way because `String.splitOn` is defined by well-founded recursion and does
not reduce definitionally. -/
def slashParts (s : String) : Nat :=
  (s.data.filter (fun c => c = '/')).length + 1

/- ### Opportunity detector (src/unnamed/part_001, class ArbitrageService) -/

/-- One venue's quote for the pair under comparison (field `price` of the
objects in the maps returned by the CEX/DEX retrievers). -/
structure ExchangeQuote where
  price : ℚ
deriving Repr, DecidableEq

/-- The opportunity object pushed by `findOpportunitiesInCategory` /
`findCrossPlatformOpportunities` (the impure `timestamp` field is omitted). -/
structure Opportunity where
  type : String
  buyExchange : String
  sellExchange : String
  buyPrice : ℚ
  sellPrice : ℚ
  profitPercentage : ℚ
deriving Repr, DecidableEq

/-- Body of the inner loop of `findOpportunitiesInCategory` for one venue
pair `(exchange1, data1)`, `(exchange2, data2)`: push an opportunity when
`profitPercentage >= PROFIT_THRESHOLD` (the threshold is a parameter). -/
def comparePair (category : String) (threshold : ℚ)
    (e1 e2 : String × ExchangeQuote) : Option Opportunity :=
  let priceDiff := |e1.2.price - e2.2.price|
  let profitPercentage := priceDiff / min e1.2.price e2.2.price * 100
  if threshold ≤ profitPercentage then
    some { type := category ++ "-to-" ++ category
         , buyExchange := if e1.2.price < e2.2.price then e1.1 else e2.1
         , sellExchange := if e1.2.price < e2.2.price then e2.1 else e1.1
         , buyPrice := min e1.2.price e2.2.price
         , sellPrice := max e1.2.price e2.2.price
         , profitPercentage := profitPercentage }
  else none

/-- `findOpportunitiesInCategory(prices, category)`: the all-pairs scan
`i < j` over `Object.entries(prices)`, in JS push order. -/
def findOpportunitiesInCategory (prices : List (String × ExchangeQuote))
    (category : String) (threshold : ℚ) : List Opportunity :=
  match prices with
  | [] => []
  | e :: rest =>
      rest.filterMap (comparePair category threshold e)
        ++ findOpportunitiesInCategory rest category threshold

/-- Body of the inner loop of `findCrossPlatformOpportunities` for one CEX
entry and one DEX entry.  On a price tie the DEX name is the buy side
(mirroring the JS ternary `cexData.price < dexData.price ? cexName : dexName`). -/
def compareCrossPair (threshold : ℚ)
    (c d : String × ExchangeQuote) : Option Opportunity :=
  let priceDiff := |c.2.price - d.2.price|
  let profitPercentage := priceDiff / min c.2.price d.2.price * 100
  if threshold ≤ profitPercentage then
    some { type := "CEX-to-DEX"
         , buyExchange := if c.2.price < d.2.price then c.1 else d.1
         , sellExchange := if c.2.price < d.2.price then d.1 else c.1
         , buyPrice := min c.2.price d.2.price
         , sellPrice := max c.2.price d.2.price
         , profitPercentage := profitPercentage }
  else none

/-- `findCrossPlatformOpportunities(cexPrices, dexPrices)`: every CEX entry
against every DEX entry, in JS push order. -/
def findCrossPlatformOpportunities (cexPrices dexPrices : List (String × ExchangeQuote))
    (threshold : ℚ) : List Opportunity :=
  cexPrices.flatMap (fun c => dexPrices.filterMap (compareCrossPair threshold c))

/-- `findArbitrageOpportunities(pair)`.  The two awaited retriever calls are
modelled as `Except` values; the surrounding `try/catch` returns `[]` on any
failure (in JS a failed CEX fetch also prevents the DEX fetch). -/
def findArbitrageOpportunities (threshold : ℚ)
    (cexFetch dexFetch : Except String (List (String × ExchangeQuote))) :
    List Opportunity :=
  match cexFetch, dexFetch with
  | .ok cexPrices, .ok dexPrices =>
      findOpportunitiesInCategory cexPrices "CEX" threshold
        ++ findOpportunitiesInCategory dexPrices "DEX" threshold
        ++ findCrossPlatformOpportunities cexPrices dexPrices threshold
  | _, _ => []

/- ### Opportunity analyzer (src/services/opportunityAnalyzerService.js) -/

/-- The fields of the opportunity object read by `OpportunityAnalyzer`.
`liquidity` is `Option` because the objects produced by `ArbitrageService`
carry no such field (JS `undefined`). -/
structure AnalyzerInput where
  buyPrice : ℚ
  sellPrice : ℚ
  profitPercentage : ℚ
  liquidity : Option ℚ
deriving Repr, DecidableEq

/-- Fee breakdown computed by `calculateNetProfit`. -/
structure Fees where
  trading : ℚ
  gas : ℚ
  slippage : ℚ
deriving Repr, DecidableEq

/-- `calculateNetProfit(opportunity)`: note that `trading` is an absolute
amount in price units (`buyPrice * 0.001 + sellPrice * 0.001`) while
`profitPercentage` and `slippage` are percentages; the subtraction mixes
the two scales exactly as the JS does. -/
def calculateNetProfit (o : AnalyzerInput) : ℚ × Fees :=
  let fees : Fees :=
    { trading := o.buyPrice * (0.001 : ℚ) + o.sellPrice * (0.001 : ℚ)
    , gas := 0
    , slippage := o.profitPercentage * (0.1 : ℚ) }
  let totalFees := fees.trading + fees.gas + fees.slippage
  (o.profitPercentage - totalFees, fees)

/-- `checkLiquidity(opportunity)`: `opportunity.liquidity >= this.minimumLiquidity`;
a missing field (`undefined >= x`) is false. -/
def checkLiquidity (minimumLiquidity : ℚ) (o : AnalyzerInput) : Bool :=
  match o.liquidity with
  | some l => minimumLiquidity ≤ l
  | none => false

/-- The analysis object returned by `analyzeOpportunity`. -/
structure Analysis where
  isViable : Bool
  reasons : List String
  estimatedNetProfit : ℚ
  fees : Fees
deriving Repr, DecidableEq

/-- `analyzeOpportunity(opportunity)`: starts viable, clears the flag on a
failed liquidity check and again on non-positive net profit, accumulating
reason strings in order. -/
def analyzeOpportunity (minimumLiquidity : ℚ) (o : AnalyzerInput) : Analysis :=
  let viable1 := checkLiquidity minimumLiquidity o
  let reasons1 : List String := if viable1 then [] else ["Insufficient liquidity"]
  let np := calculateNetProfit o
  let viable2 := viable1 && decide (0 < np.1)
  let reasons2 := if decide (np.1 ≤ 0) then reasons1 ++ ["Negative profit after fees"] else reasons1
  { isViable := viable2
  , reasons := reasons2
  , estimatedNetProfit := np.1
  , fees := np.2 }

/- ### JS `Array.prototype.sort` with a `bKey - aKey` comparator

JS sort is stable (ES2019) and, with comparator `(a, b) => key(b) - key(a)`,
orders descending by key while preserving the original relative order of
equal keys.  That denotation is realized by stable insertion sort. -/

/-- Insert `x` into `l` before the first element whose key is `≤ key x`.
Used right-to-left this yields a stable descending sort. -/
def insertByKeyDesc {α β : Type} [LinearOrder β] (key : α → β) (x : α) :
    List α → List α
  | [] => [x]
  | y :: ys => if key y ≤ key x then x :: y :: ys else y :: insertByKeyDesc key x ys

/-- Stable sort, descending by `key`: the denotation of the JS
`results.sort((a, b) => key(b) - key(a))` calls in the source. -/
def stableSortDesc {α β : Type} [LinearOrder β] (key : α → β) : List α → List α
  | [] => []
  | x :: xs => insertByKeyDesc key x (stableSortDesc key xs)

/- ### Insertion-ordered maps and sets (JS `Map` / `Set`) -/

/-- JS `Map.get`. -/
def alGet {β : Type} (k : String) : List (String × β) → Option β
  | [] => none
  | kv :: rest => if kv.1 = k then some kv.2 else alGet k rest

/-- JS `Map.set`: update in place when the key exists, else append. -/
def alSet {β : Type} (k : String) (v : β) : List (String × β) → List (String × β)
  | [] => [(k, v)]
  | kv :: rest => if kv.1 = k then (k, v) :: rest else kv :: alSet k v rest

/-- JS `Set.add` (and the `includes`-guarded `push` on arrays): append when
absent, keeping insertion order. -/
def addToSet {α : Type} [DecidableEq α] (x : α) (l : List α) : List α :=
  if x ∈ l then l else l ++ [x]

/- ### Cross-venue pair matcher (`getCommonPairs`, second document of
src/services/opportunityAnalyzerService.js) -/

/-- A BitQuery currency object (`{ Symbol, Name, SmartContract }`), each
field possibly absent. -/
structure Currency where
  symbol : Option String
  name : Option String
  smartContract : Option String
deriving Repr, DecidableEq

/-- One raw trade record as consumed by `getCommonPairs`: `pair.Trade.Currency`
(base side), `pair.Trade.Side.Currency` (quote side), the three price
windows, and `pair.usd` (volume).  A wholly missing object chain
(`pair?.Trade?...`) is modelled by `none` at the currency level. -/
structure TradeRecord where
  baseCurrency : Option Currency
  quoteCurrency : Option Currency
  priceUsd : Option ℚ
  price10minAgo : Option ℚ
  price1hAgo : Option ℚ
  usd : Option ℚ
deriving Repr, DecidableEq

/-- JS truthiness of `currency?.Symbol`: the symbol string when the currency
object exists and the symbol is present and non-empty, else `none`. -/
def truthySymbol : Option Currency → Option String
  | some c =>
      match c.symbol with
      | some s => if s = "" then none else some s
      | none => none
  | none => none

/-- The guard `!pair?.Trade?.Currency?.Symbol || !pair?.Trade?.Side?.Currency?.Symbol`
followed by `toUpperCase()`: the upper-cased base and quote symbols of a
valid record, `none` for a record the matcher skips. -/
def recordSymbols (r : TradeRecord) : Option (String × String) :=
  match truthySymbol r.baseCurrency, truthySymbol r.quoteCurrency with
  | some b, some q => some (upperString b, upperString q)
  | _, _ => none

/-- The normalized pair key of a valid record. -/
def pairKeyOf (r : TradeRecord) : Option String :=
  (recordSymbols r).map (fun p => p.1 ++ "/" ++ p.2)

/-- `currency.Name || 'Unknown'`. -/
def currencyName : Option Currency → String
  | some c => sOr c.name "Unknown"
  | none => "Unknown"

/-- `currency.SmartContract || 'Unknown'`. -/
def currencyAddress : Option Currency → String
  | some c => sOr c.smartContract "Unknown"
  | none => "Unknown"

/-- Token metadata stored in a pair aggregate. -/
structure TokenInfo where
  symbol : String
  name : String
  address : String
deriving Repr, DecidableEq

/-- The `priceData` snapshot of a pair aggregate. -/
structure PriceSnapshot where
  current : ℚ
  tenMinAgo : Option ℚ
  oneHourAgo : Option ℚ
deriving Repr, DecidableEq

/-- One value of `pairDataMap`: the per-pair aggregate built by
`getCommonPairs` (the `blockchains` JS `Set` is an insertion-ordered
duplicate-free list). -/
structure PairData where
  pair : String
  exchanges : List String
  blockchains : List String
  baseToken : TokenInfo
  quoteToken : TokenInfo
  priceData : PriceSnapshot
  volumeTotal : ℚ
deriving Repr, DecidableEq

/-- The two maps `getCommonPairs` threads through its record loop. -/
structure CPState where
  pairDataMap : List (String × PairData)
  exchangeCountMap : List (String × List String)
deriving Repr, DecidableEq

/-- Both maps start empty. -/
def initCPState : CPState := { pairDataMap := [], exchangeCountMap := [] }

/-- The fresh aggregate created when a pair key is first seen, before the
unconditional update steps (`exchanges: []`, empty blockchain set, zero
volume, price snapshot taken from this first record with JS falsy-to-null
collapsing). -/
def newPairData (pairKey baseSymbol quoteSymbol : String) (r : TradeRecord) : PairData :=
  { pair := pairKey
  , exchanges := []
  , blockchains := []
  , baseToken :=
      { symbol := baseSymbol
      , name := currencyName r.baseCurrency
      , address := currencyAddress r.baseCurrency }
  , quoteToken :=
      { symbol := quoteSymbol
      , name := currencyName r.quoteCurrency
      , address := currencyAddress r.quoteCurrency }
  , priceData :=
      { current := qOr r.priceUsd 0
      , tenMinAgo := qOrNull r.price10minAgo
      , oneHourAgo := qOrNull r.price1hAgo }
  , volumeTotal := 0 }

/-- The body of `pairs.forEach(pair => ...)` in `getCommonPairs`: skip
invalid records; otherwise record the composite exchange key
`blockchain-dex-pairKey` in the per-pair set, get-or-create the aggregate,
and apply the update steps (add blockchain, append unseen dex, add volume). -/
def exchangeKeyOf (blockchain dex pairKey : String) : String :=
  blockchain ++ "-" ++ dex ++ "-" ++ pairKey

def processRecord (blockchain dex : String) (st : CPState) (r : TradeRecord) : CPState :=
  match recordSymbols r with
  | none => st
  | some bq =>
    let pairKey := bq.1 ++ "/" ++ bq.2
    let exchangeKey := exchangeKeyOf blockchain dex pairKey
    let ecSet := (alGet pairKey st.exchangeCountMap).getD []
    let ec := alSet pairKey (addToSet exchangeKey ecSet) st.exchangeCountMap
    let basePd :=
      match alGet pairKey st.pairDataMap with
      | some pd => pd
      | none => newPairData pairKey bq.1 bq.2 r
    let pd :=
      { basePd with
        blockchains := addToSet blockchain basePd.blockchains
      , exchanges := addToSet dex basePd.exchanges
      , volumeTotal := basePd.volumeTotal + qOr r.usd 0 }
    { pairDataMap := alSet pairKey pd st.pairDataMap, exchangeCountMap := ec }

/-- One fetched sub-market batch: a blockchain, one of its (top-5-sliced)
DEXes, and the records returned by `getTradingPairsForDex`. -/
structure Batch where
  blockchain : String
  dex : String
  records : List TradeRecord
deriving Repr, DecidableEq

/-- Process one batch's records in order. -/
def processBatch (st : CPState) (b : Batch) : CPState :=
  b.records.foldl (processRecord b.blockchain b.dex) st

/-- Step 1 of `getCommonPairs`: the successfully fetched
(blockchain, dex, records) batches processed in iteration order. -/
def processBatches (bs : List Batch) : CPState :=
  bs.foldl processBatch initCPState

/-- The insertion-ordered set of composite exchange keys collected for pair
key `k` (`exchangeCountMap.get(k)`, empty when absent). -/
def ecListOf (st : CPState) (k : String) : List String :=
  (alGet k st.exchangeCountMap).getD []

/-- `exchangeCountMap.get(k).size`: the diversity count of pair key `k`. -/
def exchangeCountOf (st : CPState) (k : String) : Nat :=
  (ecListOf st k).length

/-- Step 2 of `getCommonPairs`: walk `pairDataMap` in insertion order and
keep the aggregates with `exchangeCount >= minExchanges`. -/
def commonPairsPrefilter (minExchanges : Nat) (st : CPState) : List PairData :=
  st.pairDataMap.filterMap
    (fun kv => if minExchanges ≤ exchangeCountOf st kv.1 then some kv.2 else none)

/-- Steps 2 and 3 of `getCommonPairs`: filter, then sort descending by the
diversity count looked up through `a.pair`. -/
def commonPairsFrom (minExchanges : Nat) (st : CPState) : List PairData :=
  stableSortDesc (fun pd => exchangeCountOf st pd.pair)
    (commonPairsPrefilter minExchanges st)

/-- Does batch `b` contain a valid record whose normalized pair key is `k`? -/
def contributesTo (b : Batch) (k : String) : Bool :=
  b.records.any (fun r => pairKeyOf r == some k)

/-- The distinct `(blockchain, dex)` combinations that contributed at least
one valid record for pair key `k`. -/
def contributingCombos (bs : List Batch) (k : String) : List (String × String) :=
  ((bs.filter (fun b => contributesTo b k)).map (fun b => (b.blockchain, b.dex))).dedup

/-- `getCommonPairs(minExchanges)` over a given stream of fetched batches. -/
def getCommonPairs (minExchanges : Nat) (bs : List Batch) : List PairData :=
  commonPairsFrom minExchanges (processBatches bs)

/- ### Venue catalog builder (`identifyTopPairs`,
src/services/cex/CEXPriceRetriever.js) -/

/-- One ticker object as read by `identifyTopPairs`. -/
structure Ticker where
  quoteVolume : Option ℚ
  baseVolume : Option ℚ
deriving Repr, DecidableEq

/-- `ticker.quoteVolume || ticker.baseVolume` under JS truthiness. -/
def tickerVolume (t : Ticker) : Option ℚ :=
  if qTruthy t.quoteVolume then t.quoteVolume else t.baseVolume

/-- The body of the ticker loop: skip tickers with no truthy volume, symbols
that do not split as `BASE/QUOTE`, and volumes below the 10000 floor;
otherwise accumulate the volume under the raw symbol key. -/
def addTicker (m : List (String × ℚ)) (st : String × Ticker) : List (String × ℚ) :=
  if !qTruthy st.2.quoteVolume && !qTruthy st.2.baseVolume then m
  else if slashParts st.1 ≠ 2 then m
  else
    match tickerVolume st.2 with
    | none => m
    | some v =>
        if v = 0 ∨ v < 10000 then m
        else alSet st.1 ((alGet st.1 m).getD 0 + v) m

/-- The fixed fallback list of well-known pairs. -/
def defaultPairs : List String :=
  [ "BTC/USDT", "ETH/USDT", "SOL/USDT", "BNB/USDT", "XRP/USDT"
  , "ADA/USDT", "AVAX/USDT", "DOGE/USDT", "DOT/USDT", "SHIB/USDT"
  , "LINK/USDT", "MATIC/USDT", "UNI/USDT", "LTC/USDT", "ATOM/USDT"
  , "ETC/USDT", "BCH/USDT", "FIL/USDT", "XLM/USDT", "NEAR/USDT"
  , "ALGO/USDT", "APE/USDT", "AXS/USDT", "MANA/USDT", "SAND/USDT" ]

/-- The padding loop: walk `defaults`, pushing each pair not already present
until the list reaches `topPairs` entries (the JS breaks right after the
push that reaches the target; checking the length first is equivalent since
the outer guard ensures the loop starts below the target). -/
def padWithDefaults (topPairs : Nat) (pairs : List String) : List String → List String
  | [] => pairs
  | d :: ds =>
      if topPairs ≤ pairs.length then padWithDefaults topPairs pairs ds
      else if d ∈ pairs then padWithDefaults topPairs pairs ds
      else padWithDefaults topPairs (pairs ++ [d]) ds

/-- The per-symbol volume totals accumulated across each exchange's tickers
(an exchange whose `fetchTickers` failed or is unsupported contributes
`none` and is skipped by its `try/catch`). -/
def volumeMap (exchanges : List (String × Option (List (String × Ticker)))) :
    List (String × ℚ) :=
  exchanges.foldl
    (fun m e =>
      match e.2 with
      | none => m
      | some ts => ts.foldl addTicker m)
    []

/-- The pairs discovered by volume before the fallback step: sort the
accumulated volume map descending by volume (stable), truncate to
`topPairs`, keep the symbol names. -/
def discoveredPairs (exchanges : List (String × Option (List (String × Ticker))))
    (topPairs : Nat) : List String :=
  ((stableSortDesc (fun kv => kv.2) (volumeMap exchanges)).take topPairs).map Prod.fst

/-- `identifyTopPairs()`: the discovered ranking, padded from
`defaultPairs` when it falls short of the target count. -/
def identifyTopPairs (exchanges : List (String × Option (List (String × Ticker))))
    (topPairs : Nat) : List String :=
  let pairs := discoveredPairs exchanges topPairs
  if pairs.length < topPairs then padWithDefaults topPairs pairs defaultPairs
  else pairs

/- ### Concrete inputs used by scenario evaluations -/

/-- How `analyzeOpportunity` reads an opportunity produced by
`ArbitrageService`: the analyzer accesses `buyPrice`, `sellPrice`,
`profitPercentage` and `liquidity`; the caller supplies the latter
(the detector's objects carry none). -/
def toAnalyzerInput (opp : Opportunity) (liquidity : Option ℚ) : AnalyzerInput :=
  { buyPrice := opp.buyPrice
  , sellPrice := opp.sellPrice
  , profitPercentage := opp.profitPercentage
  , liquidity := liquidity }

/-- The spec's basic scenario: venue A quotes ETH/USDT at 2000, venue B at
2040. -/
def quotesAB : List (String × ExchangeQuote) := [("A", ⟨2000⟩), ("B", ⟨2040⟩)]

/-- The single opportunity the detector builds from `quotesAB`. -/
def oppAB : Opportunity :=
  { type := "CEX-to-CEX", buyExchange := "A", sellExchange := "B"
  , buyPrice := 2000, sellPrice := 2040, profitPercentage := 2 }

/-- A valid ETH/USDT trade record whose current price snapshot is 1. -/
def recA : TradeRecord :=
  { baseCurrency := some { symbol := some "eth", name := some "Ether", smartContract := some "0x1" }
  , quoteCurrency := some { symbol := some "usdt", name := some "Tether", smartContract := some "0x2" }
  , priceUsd := some 1
  , price10minAgo := some 3
  , price1hAgo := none
  , usd := some 100 }

/-- A later valid ETH/USDT record whose current price snapshot is 2. -/
def recB : TradeRecord :=
  { recA with priceUsd := some 2, price10minAgo := some 4, usd := some 50 }

/-- An ETH/USDT record with the quote-currency symbol missing. -/
def recBad : TradeRecord :=
  { recA with quoteCurrency := some { symbol := none, name := none, smartContract := none } }

/-- An explicit aggregate for ETH/USDT as built from `recA` on
ethereum/uniswap. -/
def pdETH : PairData :=
  { pair := "ETH/USDT"
  , exchanges := ["uniswap"]
  , blockchains := ["ethereum"]
  , baseToken := { symbol := "ETH", name := "Ether", address := "0x1" }
  , quoteToken := { symbol := "USDT", name := "Tether", address := "0x2" }
  , priceData := { current := 1, tenMinAgo := some 3, oneHourAgo := none }
  , volumeTotal := 100 }

/-- An explicit matcher state holding the `pdETH` aggregate. -/
def stETH : CPState :=
  { pairDataMap := [("ETH/USDT", pdETH)]
  , exchangeCountMap := [("ETH/USDT", ["ethereum-uniswap-ETH/USDT"])] }

/- ### Lemmas: the stable descending sort -/

theorem perm_insertByKeyDesc {α β : Type} [LinearOrder β] (key : α → β) (x : α) :
    ∀ l : List α, List.Perm (insertByKeyDesc key x l) (x :: l)
  | [] => List.Perm.refl _
  | y :: ys => by
      unfold insertByKeyDesc
      by_cases h : key y ≤ key x
      · rw [if_pos h]
      · rw [if_neg h]
        exact ((perm_insertByKeyDesc key x ys).cons y).trans (List.Perm.swap x y ys)

theorem perm_stableSortDesc {α β : Type} [LinearOrder β] (key : α → β) :
    ∀ l : List α, List.Perm (stableSortDesc key l) l
  | [] => List.Perm.refl _
  | x :: xs =>
      (perm_insertByKeyDesc key x (stableSortDesc key xs)).trans
        ((perm_stableSortDesc key xs).cons x)

theorem pairwise_insertByKeyDesc {α β : Type} [LinearOrder β] (key : α → β) (x : α) :
    ∀ l : List α, List.Pairwise (fun a b => key b ≤ key a) l →
      List.Pairwise (fun a b => key b ≤ key a) (insertByKeyDesc key x l)
  | [], _ => List.pairwise_singleton _ _
  | y :: ys, h => by
      unfold insertByKeyDesc
      by_cases hx : key y ≤ key x
      · rw [if_pos hx]
        refine List.Pairwise.cons ?_ h
        intro z hz
        rcases List.mem_cons.mp hz with rfl | hz2
        · exact hx
        · exact le_trans ((List.pairwise_cons.mp h).1 z hz2) hx
      · rw [if_neg hx]
        refine List.Pairwise.cons ?_
          (pairwise_insertByKeyDesc key x ys (List.pairwise_cons.mp h).2)
        intro z hz
        have hz2 := (perm_insertByKeyDesc key x ys).mem_iff.mp hz
        rcases List.mem_cons.mp hz2 with rfl | hz3
        · exact le_of_lt (lt_of_not_le hx)
        · exact (List.pairwise_cons.mp h).1 z hz3

theorem pairwise_stableSortDesc {α β : Type} [LinearOrder β] (key : α → β) :
    ∀ l : List α, List.Pairwise (fun a b => key b ≤ key a) (stableSortDesc key l)
  | [] => List.Pairwise.nil
  | x :: xs => pairwise_insertByKeyDesc key x _ (pairwise_stableSortDesc key xs)

theorem filter_insertByKeyDesc_eq {α β : Type} [LinearOrder β] (key : α → β) (x : α)
    (c : β) (hx : key x = c) :
    ∀ l : List α, (insertByKeyDesc key x l).filter (fun a => decide (key a = c)) =
      x :: l.filter (fun a => decide (key a = c))
  | [] => by simp [insertByKeyDesc, hx]
  | y :: ys => by
      unfold insertByKeyDesc
      by_cases hy : key y ≤ key x
      · rw [if_pos hy]
        simp [List.filter_cons, hx]
      · rw [if_neg hy]
        have hyc : ¬ (key y = c) := fun h => hy (le_of_eq (h.trans hx.symm))
        rw [List.filter_cons, List.filter_cons, filter_insertByKeyDesc_eq key x c hx ys]
        simp [hyc]

theorem filter_insertByKeyDesc_ne {α β : Type} [LinearOrder β] (key : α → β) (x : α)
    (c : β) (hx : ¬ key x = c) :
    ∀ l : List α, (insertByKeyDesc key x l).filter (fun a => decide (key a = c)) =
      l.filter (fun a => decide (key a = c))
  | [] => by simp [insertByKeyDesc, hx]
  | y :: ys => by
      unfold insertByKeyDesc
      by_cases hy : key y ≤ key x
      · rw [if_pos hy]
        simp [List.filter_cons, hx]
      · rw [if_neg hy]
        rw [List.filter_cons, List.filter_cons,
          filter_insertByKeyDesc_ne key x c hx ys]

theorem filter_stableSortDesc {α β : Type} [LinearOrder β] (key : α → β) (c : β) :
    ∀ l : List α, (stableSortDesc key l).filter (fun a => decide (key a = c)) =
      l.filter (fun a => decide (key a = c))
  | [] => rfl
  | x :: xs => by
      unfold stableSortDesc
      by_cases hx : key x = c
      · rw [filter_insertByKeyDesc_eq key x c hx, filter_stableSortDesc key c xs,
          List.filter_cons]
        simp [hx]
      · rw [filter_insertByKeyDesc_ne key x c hx, filter_stableSortDesc key c xs,
          List.filter_cons]
        simp [hx]

/- ### Lemmas: insertion-ordered maps and sets -/

theorem alGet_alSet_self {β : Type} (k : String) (v : β) :
    ∀ m : List (String × β), alGet k (alSet k v m) = some v
  | [] => by simp [alGet, alSet]
  | kv :: rest => by
      unfold alSet
      by_cases h : kv.1 = k
      · rw [if_pos h]
        simp [alGet]
      · rw [if_neg h]
        unfold alGet
        rw [if_neg h]
        exact alGet_alSet_self k v rest

theorem alGet_alSet_ne {β : Type} (k1 k : String) (v : β) (hne : k1 ≠ k) :
    ∀ m : List (String × β), alGet k (alSet k1 v m) = alGet k m
  | [] => by simp [alGet, alSet, hne]
  | kv :: rest => by
      unfold alSet
      by_cases h : kv.1 = k1
      · rw [if_pos h]
        unfold alGet
        rw [if_neg (h ▸ hne), if_neg (by rw [h]; exact hne)]
      · rw [if_neg h]
        unfold alGet
        by_cases h2 : kv.1 = k
        · rw [if_pos h2, if_pos h2]
        · rw [if_neg h2, if_neg h2]
          exact alGet_alSet_ne k1 k v hne rest

theorem mem_keys_alSet {β : Type} (k k2 : String) (v : β) :
    ∀ m : List (String × β),
      k2 ∈ (alSet k v m).map Prod.fst ↔ k2 ∈ m.map Prod.fst ∨ k2 = k
  | [] => by simp [alSet]
  | kv :: rest => by
      unfold alSet
      by_cases h : kv.1 = k
      · rw [if_pos h]
        subst h
        simp [or_assoc, or_comm, or_left_comm]
      · rw [if_neg h]
        simp only [List.map_cons, List.mem_cons, mem_keys_alSet k k2 v rest, or_assoc]

theorem keys_nodup_alSet {β : Type} (k : String) (v : β) :
    ∀ m : List (String × β), (m.map Prod.fst).Nodup → ((alSet k v m).map Prod.fst).Nodup
  | [], _ => by simp [alSet]
  | kv :: rest, h => by
      unfold alSet
      rcases List.pairwise_cons.mp h with ⟨h1, h2⟩
      by_cases hk : kv.1 = k
      · rw [if_pos hk]
        subst hk
        exact h
      · rw [if_neg hk]
        refine List.pairwise_cons.mpr ⟨?_, keys_nodup_alSet k v rest h2⟩
        intro a ha
        rcases (mem_keys_alSet k a v rest).mp (by simpa using ha) with h3 | rfl
        · exact h1 a (by simpa using h3)
        · exact hk

theorem mem_addToSet {α : Type} [DecidableEq α] (x y : α) (l : List α) :
    y ∈ addToSet x l ↔ y ∈ l ∨ y = x := by
  unfold addToSet
  by_cases h : x ∈ l
  · rw [if_pos h]
    constructor
    · exact Or.inl
    · intro h2
      rcases h2 with h2 | rfl
      · exact h2
      · exact h
  · rw [if_neg h]
    simp

theorem nodup_addToSet {α : Type} [DecidableEq α] (x : α) (l : List α) (h : l.Nodup) :
    (addToSet x l).Nodup := by
  unfold addToSet
  by_cases hx : x ∈ l
  · rw [if_pos hx]
    exact h
  · rw [if_neg hx]
    simp [List.nodup_append, h, hx]

/- ### Lemmas: the opportunity detector -/

theorem comparePair_some (category : String) (threshold : ℚ)
    (e1 e2 : String × ExchangeQuote) (opp : Opportunity)
    (h : comparePair category threshold e1 e2 = some opp) :
    opp.buyPrice = min e1.2.price e2.2.price ∧
    opp.sellPrice = max e1.2.price e2.2.price ∧
    opp.profitPercentage =
      |e1.2.price - e2.2.price| / min e1.2.price e2.2.price * 100 ∧
    threshold ≤ opp.profitPercentage := by
  simp only [comparePair] at h
  split at h
  · cases h
    exact ⟨rfl, rfl, rfl, by assumption⟩
  · cases h

theorem compareCrossPair_some (threshold : ℚ)
    (c d : String × ExchangeQuote) (opp : Opportunity)
    (h : compareCrossPair threshold c d = some opp) :
    opp.buyPrice = min c.2.price d.2.price ∧
    opp.sellPrice = max c.2.price d.2.price ∧
    opp.profitPercentage =
      |c.2.price - d.2.price| / min c.2.price d.2.price * 100 ∧
    threshold ≤ opp.profitPercentage := by
  simp only [compareCrossPair] at h
  split at h
  · cases h
    exact ⟨rfl, rfl, rfl, by assumption⟩
  · cases h

theorem mem_findOpportunitiesInCategory (category : String) (threshold : ℚ)
    (opp : Opportunity) :
    ∀ prices : List (String × ExchangeQuote),
      opp ∈ findOpportunitiesInCategory prices category threshold →
        ∃ e1 e2, e1 ∈ prices ∧ e2 ∈ prices ∧
          comparePair category threshold e1 e2 = some opp
  | [], h => absurd h (by simp [findOpportunitiesInCategory])
  | e :: rest, h => by
      unfold findOpportunitiesInCategory at h
      rcases List.mem_append.mp h with h1 | h2
      · rcases List.mem_filterMap.mp h1 with ⟨e2, he2, hc⟩
        exact ⟨e, e2, List.mem_cons_self e rest, List.mem_cons_of_mem e he2, hc⟩
      · rcases mem_findOpportunitiesInCategory category threshold opp rest h2 with
          ⟨e1, e2, hm1, hm2, hc⟩
        exact ⟨e1, e2, List.mem_cons_of_mem e hm1, List.mem_cons_of_mem e hm2, hc⟩

theorem mem_findCrossPlatformOpportunities (threshold : ℚ) (opp : Opportunity)
    (cexPrices dexPrices : List (String × ExchangeQuote))
    (h : opp ∈ findCrossPlatformOpportunities cexPrices dexPrices threshold) :
    ∃ c d, c ∈ cexPrices ∧ d ∈ dexPrices ∧
      compareCrossPair threshold c d = some opp := by
  unfold findCrossPlatformOpportunities at h
  rcases List.mem_flatMap.mp h with ⟨c, hc, hd⟩
  rcases List.mem_filterMap.mp hd with ⟨d, hd2, hcd⟩
  exact ⟨c, d, hc, hd2, hcd⟩

theorem comparePair_some_of_gap (category : String) (threshold : ℚ)
    (e1 e2 : String × ExchangeQuote)
    (h : threshold ≤ |e1.2.price - e2.2.price| / min e1.2.price e2.2.price * 100) :
    ∃ opp, comparePair category threshold e1 e2 = some opp := by
  simp only [comparePair]
  rw [if_pos h]
  exact ⟨_, rfl⟩

theorem compareCrossPair_some_of_gap (threshold : ℚ) (c d : String × ExchangeQuote)
    (h : threshold ≤ |c.2.price - d.2.price| / min c.2.price d.2.price * 100) :
    ∃ opp, compareCrossPair threshold c d = some opp := by
  simp only [compareCrossPair]
  rw [if_pos h]
  exact ⟨_, rfl⟩

theorem findOpportunitiesInCategory_complete (category : String) (threshold : ℚ)
    (e1 e2 : String × ExchangeQuote) (opp : Opportunity)
    (hsome : comparePair category threshold e1 e2 = some opp) :
    ∀ (pre mid post : List (String × ExchangeQuote)),
      opp ∈ findOpportunitiesInCategory (pre ++ e1 :: mid ++ e2 :: post) category threshold
  | [], mid, post => by
      show opp ∈ (mid ++ e2 :: post).filterMap (comparePair category threshold e1) ++
        findOpportunitiesInCategory (mid ++ e2 :: post) category threshold
      exact List.mem_append_left _
        (List.mem_filterMap.mpr ⟨e2, List.mem_append_right mid (List.mem_cons_self e2 post), hsome⟩)
  | p :: pre, mid, post => by
      show opp ∈ (pre ++ e1 :: mid ++ e2 :: post).filterMap (comparePair category threshold p) ++
        findOpportunitiesInCategory (pre ++ e1 :: mid ++ e2 :: post) category threshold
      exact List.mem_append_right _
        (findOpportunitiesInCategory_complete category threshold e1 e2 opp hsome pre mid post)

theorem findCrossPlatformOpportunities_complete (threshold : ℚ)
    (c d : String × ExchangeQuote) (opp : Opportunity)
    (cexPrices dexPrices : List (String × ExchangeQuote))
    (hc : c ∈ cexPrices) (hd : d ∈ dexPrices)
    (hsome : compareCrossPair threshold c d = some opp) :
    opp ∈ findCrossPlatformOpportunities cexPrices dexPrices threshold :=
  List.mem_flatMap.mpr ⟨c, hc, List.mem_filterMap.mpr ⟨d, hd, hsome⟩⟩

/-- Concrete evaluation of the detector on the spec's basic scenario. -/
theorem eval_quotesAB : findOpportunitiesInCategory quotesAB "CEX" 1 = [oppAB] := by
  norm_num [findOpportunitiesInCategory, comparePair, quotesAB, oppAB, min_def, max_def,
    List.filterMap_cons, List.filterMap_nil]
  rfl

/-- Concrete evaluation of the full fetch-and-compare path on the spec's
basic scenario (no DEX quotes). -/
theorem eval_findArbitrageAB :
    findArbitrageOpportunities 1 (Except.ok quotesAB) (Except.ok []) = [oppAB] := by
  show findOpportunitiesInCategory quotesAB "CEX" 1
      ++ findOpportunitiesInCategory [] "DEX" 1
      ++ findCrossPlatformOpportunities quotesAB [] 1 = [oppAB]
  rw [eval_quotesAB]
  rfl

/-- Claim C3: every `ArbitrageOpportunity` produced by any of the three
comparison passes satisfies `buyPrice ≤ sellPrice`, has `buyPrice` the
minimum (and `sellPrice` the maximum) of the two quoted prices, and records
`profitPercentage = (sellPrice - buyPrice) / buyPrice * 100`. -/
theorem c3_opportunity_invariants :
    (∀ (prices : List (String × ExchangeQuote)) (category : String) (threshold : ℚ)
        (opp : Opportunity),
        opp ∈ findOpportunitiesInCategory prices category threshold →
          opp.buyPrice ≤ opp.sellPrice ∧
          opp.profitPercentage = (opp.sellPrice - opp.buyPrice) / opp.buyPrice * 100 ∧
          ∃ e1 e2, e1 ∈ prices ∧ e2 ∈ prices ∧
            opp.buyPrice = min e1.2.price e2.2.price ∧
            opp.sellPrice = max e1.2.price e2.2.price) ∧
    (∀ (cexPrices dexPrices : List (String × ExchangeQuote)) (threshold : ℚ)
        (opp : Opportunity),
        opp ∈ findCrossPlatformOpportunities cexPrices dexPrices threshold →
          opp.buyPrice ≤ opp.sellPrice ∧
          opp.profitPercentage = (opp.sellPrice - opp.buyPrice) / opp.buyPrice * 100 ∧
          ∃ c d, c ∈ cexPrices ∧ d ∈ dexPrices ∧
            opp.buyPrice = min c.2.price d.2.price ∧
            opp.sellPrice = max c.2.price d.2.price) := by
  constructor
  · intro prices category threshold opp h
    rcases mem_findOpportunitiesInCategory category threshold opp prices h with
      ⟨e1, e2, h1, h2, hc⟩
    rcases comparePair_some category threshold e1 e2 opp hc with ⟨hb, hs, hp, _⟩
    refine ⟨?_, ?_, e1, e2, h1, h2, hb, hs⟩
    · rw [hb, hs]
      exact min_le_max
    · rw [hp, hb, hs, ← max_sub_min_eq_abs,
        max_comm e2.2.price e1.2.price, min_comm e2.2.price e1.2.price]
  · intro cexPrices dexPrices threshold opp h
    rcases mem_findCrossPlatformOpportunities threshold opp cexPrices dexPrices h with
      ⟨c, d, h1, h2, hc⟩
    rcases compareCrossPair_some threshold c d opp hc with ⟨hb, hs, hp, _⟩
    refine ⟨?_, ?_, c, d, h1, h2, hb, hs⟩
    · rw [hb, hs]
      exact min_le_max
    · rw [hp, hb, hs, ← max_sub_min_eq_abs,
        max_comm d.2.price c.2.price, min_comm d.2.price c.2.price]

/-- Witness for C3 at the concrete scenario `quotesAB`. -/
theorem c3_witness :
    oppAB ∈ findOpportunitiesInCategory quotesAB "CEX" 1 ∧
    oppAB.buyPrice ≤ oppAB.sellPrice ∧
    oppAB.profitPercentage = (oppAB.sellPrice - oppAB.buyPrice) / oppAB.buyPrice * 100 := by
  have hm : oppAB ∈ findOpportunitiesInCategory quotesAB "CEX" 1 := by
    rw [eval_quotesAB]
    exact List.mem_singleton.mpr rfl
  have h := c3_opportunity_invariants.1 quotesAB "CEX" 1 oppAB hm
  exact ⟨hm, h.1, h.2.1⟩

/-- Claim C9: when every quoted price is strictly positive, the divisor
`min(price1, price2)` of the gap computation is nonzero for every compared
venue pair, and every emitted opportunity has strictly positive `buyPrice`. -/
theorem c9_positive_prices_division_safe :
    (∀ (prices : List (String × ExchangeQuote)) (category : String) (threshold : ℚ),
        (∀ e ∈ prices, 0 < e.2.price) →
          (∀ e1 ∈ prices, ∀ e2 ∈ prices, min e1.2.price e2.2.price ≠ 0) ∧
          ∀ opp ∈ findOpportunitiesInCategory prices category threshold,
            0 < opp.buyPrice) ∧
    (∀ (cexPrices dexPrices : List (String × ExchangeQuote)) (threshold : ℚ),
        (∀ e ∈ cexPrices, 0 < e.2.price) → (∀ e ∈ dexPrices, 0 < e.2.price) →
          (∀ c ∈ cexPrices, ∀ d ∈ dexPrices, min c.2.price d.2.price ≠ 0) ∧
          ∀ opp ∈ findCrossPlatformOpportunities cexPrices dexPrices threshold,
            0 < opp.buyPrice) := by
  constructor
  · intro prices category threshold hpos
    constructor
    · intro e1 h1 e2 h2
      exact ne_of_gt (lt_min (hpos e1 h1) (hpos e2 h2))
    · intro opp h
      rcases mem_findOpportunitiesInCategory category threshold opp prices h with
        ⟨e1, e2, h1, h2, hc⟩
      rcases comparePair_some category threshold e1 e2 opp hc with ⟨hb, _, _, _⟩
      rw [hb]
      exact lt_min (hpos e1 h1) (hpos e2 h2)
  · intro cexPrices dexPrices threshold hcex hdex
    constructor
    · intro c h1 d h2
      exact ne_of_gt (lt_min (hcex c h1) (hdex d h2))
    · intro opp h
      rcases mem_findCrossPlatformOpportunities threshold opp cexPrices dexPrices h with
        ⟨c, d, h1, h2, hc⟩
      rcases compareCrossPair_some threshold c d opp hc with ⟨hb, _, _, _⟩
      rw [hb]
      exact lt_min (hcex c h1) (hdex d h2)

/-- Witness for C9 at the concrete scenario `quotesAB`. -/
theorem c9_witness :
    (∀ e ∈ quotesAB, 0 < e.2.price) ∧
    ∀ opp ∈ findOpportunitiesInCategory quotesAB "CEX" 1, 0 < opp.buyPrice := by
  have hpos : ∀ e ∈ quotesAB, 0 < e.2.price := by decide
  exact ⟨hpos, (c9_positive_prices_division_safe.1 quotesAB "CEX" 1 hpos).2⟩

/-- Claim C10: a failed CEX or DEX fetch makes `findArbitrageOpportunities`
return the empty list (the `try/catch` swallows the error). -/
theorem c10_fetch_error_returns_empty :
    ∀ (threshold : ℚ) (cexFetch dexFetch : Except String (List (String × ExchangeQuote))),
      ((∃ e, cexFetch = Except.error e) ∨ (∃ e, dexFetch = Except.error e)) →
        findArbitrageOpportunities threshold cexFetch dexFetch = [] := by
  intro threshold cexFetch dexFetch h
  rcases h with ⟨e, rfl⟩ | ⟨e, rfl⟩
  · rfl
  · cases cexFetch <;> rfl

/-- Witness for C10 at a concrete failed CEX fetch. -/
theorem c10_witness :
    (∃ e, (Except.error "boom" : Except String (List (String × ExchangeQuote))) =
      Except.error e) ∧
    findArbitrageOpportunities 1 (Except.error "boom") (Except.ok quotesAB) = [] :=
  ⟨⟨"boom", rfl⟩, c10_fetch_error_returns_empty 1 _ _ (Or.inl ⟨"boom", rfl⟩)⟩

/-- Claim C1 (code-bug evidence): at the spec's basic scenario — venue A at
2000, venue B at 2040, threshold 1% — the detector emits exactly one
opportunity, buy A at 2000 / sell B at 2040 with gross gap exactly 2%, but
the code's `calculateNetProfit` on that opportunity returns −56/25 = −2.24,
not the ≈ +1.6 the claim states: the absolute trading fee
`buyPrice*0.001 + sellPrice*0.001 = 4.04` (price units) is subtracted from
a percentage. -/
theorem c1_basic_scenario_evaluation :
    findOpportunitiesInCategory quotesAB "CEX" 1 = [oppAB] ∧
    oppAB.profitPercentage = 2 ∧
    (calculateNetProfit (toAnalyzerInput oppAB (some 1000000))).1 = -(56/25) ∧
    (calculateNetProfit (toAnalyzerInput oppAB (some 1000000))).1 < 0 := by
  refine ⟨eval_quotesAB, rfl, ?_, ?_⟩
  · norm_num [calculateNetProfit, toAnalyzerInput, oppAB]
  · norm_num [calculateNetProfit, toAnalyzerInput, oppAB]

/-- Counterexample to claim C2: the scenario opportunity is in the list
returned by `findArbitrageOpportunities` even though the analyzer computes
a negative net profit for it (with ample liquidity, floor 0) — emission is
not gated on viability. -/
theorem c2_counterexample :
    oppAB ∈ findArbitrageOpportunities 1 (Except.ok quotesAB) (Except.ok []) ∧
    (analyzeOpportunity 0 (toAnalyzerInput oppAB (some 1000000))).isViable = false ∧
    (analyzeOpportunity 0 (toAnalyzerInput oppAB (some 1000000))).estimatedNetProfit < 0 := by
  refine ⟨?_, ?_, ?_⟩
  · rw [eval_findArbitrageAB]
    exact List.mem_singleton.mpr rfl
  · norm_num [analyzeOpportunity, checkLiquidity, calculateNetProfit, toAnalyzerInput, oppAB]
  · norm_num [analyzeOpportunity, calculateNetProfit, toAnalyzerInput, oppAB]

/-- Claim C2 as amended: a candidate venue pair is emitted exactly when its
gross gap meets the threshold — always emitted then, regardless of net
profit or liquidity (completeness), and only then (soundness) — and on
successful fetches the caller-facing `findArbitrageOpportunities` returns
precisely the three scans' pushes.  Net profit and liquidity are checked
only by the separate `analyzeOpportunity`, whose viability verdict is
exactly "liquidity check passes and net profit strictly positive" but which
gates nothing in the emission path. -/
theorem c2_amended_emission_and_viability :
    (∀ (minimumLiquidity : ℚ) (o : AnalyzerInput),
        (analyzeOpportunity minimumLiquidity o).isViable = true ↔
          (checkLiquidity minimumLiquidity o = true ∧ 0 < (calculateNetProfit o).1)) ∧
    (∀ (minimumLiquidity : ℚ) (o : AnalyzerInput),
        (analyzeOpportunity minimumLiquidity o).estimatedNetProfit =
          (calculateNetProfit o).1) ∧
    (∀ (prices : List (String × ExchangeQuote)) (category : String) (threshold : ℚ),
        ∀ opp ∈ findOpportunitiesInCategory prices category threshold,
          threshold ≤ opp.profitPercentage) ∧
    (∀ (cexPrices dexPrices : List (String × ExchangeQuote)) (threshold : ℚ),
        ∀ opp ∈ findCrossPlatformOpportunities cexPrices dexPrices threshold,
          threshold ≤ opp.profitPercentage) ∧
    (∀ (category : String) (threshold : ℚ)
        (pre mid post : List (String × ExchangeQuote)) (e1 e2 : String × ExchangeQuote),
        threshold ≤ |e1.2.price - e2.2.price| / min e1.2.price e2.2.price * 100 →
          ∃ opp, comparePair category threshold e1 e2 = some opp ∧
            opp ∈ findOpportunitiesInCategory (pre ++ e1 :: mid ++ e2 :: post)
              category threshold) ∧
    (∀ (cexPrices dexPrices : List (String × ExchangeQuote)) (threshold : ℚ)
        (c d : String × ExchangeQuote), c ∈ cexPrices → d ∈ dexPrices →
        threshold ≤ |c.2.price - d.2.price| / min c.2.price d.2.price * 100 →
          ∃ opp, compareCrossPair threshold c d = some opp ∧
            opp ∈ findCrossPlatformOpportunities cexPrices dexPrices threshold) ∧
    (∀ (threshold : ℚ) (cexPrices dexPrices : List (String × ExchangeQuote)),
        findArbitrageOpportunities threshold (Except.ok cexPrices) (Except.ok dexPrices) =
          findOpportunitiesInCategory cexPrices "CEX" threshold
            ++ findOpportunitiesInCategory dexPrices "DEX" threshold
            ++ findCrossPlatformOpportunities cexPrices dexPrices threshold) := by
  refine ⟨?_, ?_, ?_, ?_, ?_, ?_, ?_⟩
  · intro minimumLiquidity o
    simp [analyzeOpportunity]
  · intro minimumLiquidity o
    rfl
  · intro prices category threshold opp h
    rcases mem_findOpportunitiesInCategory category threshold opp prices h with
      ⟨e1, e2, _, _, hc⟩
    exact (comparePair_some category threshold e1 e2 opp hc).2.2.2
  · intro cexPrices dexPrices threshold opp h
    rcases mem_findCrossPlatformOpportunities threshold opp cexPrices dexPrices h with
      ⟨c, d, _, _, hc⟩
    exact (compareCrossPair_some threshold c d opp hc).2.2.2
  · intro category threshold pre mid post e1 e2 hgap
    rcases comparePair_some_of_gap category threshold e1 e2 hgap with ⟨opp, hsome⟩
    exact ⟨opp, hsome,
      findOpportunitiesInCategory_complete category threshold e1 e2 opp hsome pre mid post⟩
  · intro cexPrices dexPrices threshold c d hc hd hgap
    rcases compareCrossPair_some_of_gap threshold c d hgap with ⟨opp, hsome⟩
    exact ⟨opp, hsome,
      findCrossPlatformOpportunities_complete threshold c d opp cexPrices dexPrices hc hd hsome⟩
  · intro threshold cexPrices dexPrices
    rfl

/-- Witness for C2's amended statement at the concrete scenario: the 2%-gap
pair is emitted (completeness conjunct applied with its gap hypothesis
discharged), and the analyzer verdict iff is exercised on the emitted
opportunity. -/
theorem c2_witness :
    ((1 : ℚ) ≤ |(2000 : ℚ) - 2040| / min (2000 : ℚ) 2040 * 100) ∧
    (∃ opp, comparePair "CEX" 1 ("A", ⟨2000⟩) ("B", ⟨2040⟩) = some opp ∧
      opp ∈ findOpportunitiesInCategory [("A", ⟨2000⟩), ("B", ⟨2040⟩)] "CEX" 1) ∧
    ((analyzeOpportunity 0 (toAnalyzerInput oppAB (some 1000000))).isViable = true ↔
      (checkLiquidity 0 (toAnalyzerInput oppAB (some 1000000)) = true ∧
        0 < (calculateNetProfit (toAnalyzerInput oppAB (some 1000000))).1)) :=
  ⟨by norm_num,
   c2_amended_emission_and_viability.2.2.2.2.1 "CEX" 1 [] [] []
     ("A", ⟨2000⟩) ("B", ⟨2040⟩) (by norm_num),
   c2_amended_emission_and_viability.1 0 (toAnalyzerInput oppAB (some 1000000))⟩

/- ### Lemmas: the cross-venue pair matcher -/

theorem ecListOf_processRecord (ch dex : String) (st : CPState) (r : TradeRecord)
    (k : String) :
    ecListOf (processRecord ch dex st r) k =
      match recordSymbols r with
      | some bq =>
          if bq.1 ++ "/" ++ bq.2 = k
          then addToSet (exchangeKeyOf ch dex k) (ecListOf st k)
          else ecListOf st k
      | none => ecListOf st k := by
  cases hrs : recordSymbols r with
  | none => simp only [processRecord, hrs]
  | some bq =>
      simp only [processRecord, hrs, ecListOf]
      by_cases hk : bq.1 ++ "/" ++ bq.2 = k
      · rw [if_pos hk]
        subst hk
        rw [alGet_alSet_self]
        rfl
      · rw [if_neg hk, alGet_alSet_ne _ _ _ hk]

theorem ecListOf_processRecords (ch dex : String) :
    ∀ (rs : List TradeRecord) (st : CPState) (k e : String),
      e ∈ ecListOf (rs.foldl (processRecord ch dex) st) k ↔
        e ∈ ecListOf st k ∨
          ((∃ r ∈ rs, pairKeyOf r = some k) ∧ e = exchangeKeyOf ch dex k)
  | [], st, k, e => by simp
  | r :: rs, st, k, e => by
      rw [List.foldl_cons, ecListOf_processRecords ch dex rs _ k e,
        ecListOf_processRecord]
      cases hrs : recordSymbols r with
      | none =>
          have hpk : pairKeyOf r = none := by simp [pairKeyOf, hrs]
          simp only [hpk, List.mem_cons]
          constructor
          · rintro (h | ⟨⟨r2, hr2, hpk2⟩, he⟩)
            · exact Or.inl h
            · exact Or.inr ⟨⟨r2, Or.inr hr2, hpk2⟩, he⟩
          · rintro (h | ⟨⟨r2, hr2 | hr2, hpk2⟩, he⟩)
            · exact Or.inl h
            · subst hr2
              simp [hpk] at hpk2
            · exact Or.inr ⟨⟨r2, hr2, hpk2⟩, he⟩
      | some bq =>
          have hpk : pairKeyOf r = some (bq.1 ++ "/" ++ bq.2) := by simp [pairKeyOf, hrs]
          by_cases hk : bq.1 ++ "/" ++ bq.2 = k
          · simp only [if_pos hk, mem_addToSet, List.mem_cons]
            constructor
            · rintro ((h | he) | ⟨⟨r2, hr2, hpk2⟩, he⟩)
              · exact Or.inl h
              · exact Or.inr ⟨⟨r, Or.inl rfl, by rw [hpk, hk]⟩, he⟩
              · exact Or.inr ⟨⟨r2, Or.inr hr2, hpk2⟩, he⟩
            · rintro (h | ⟨⟨r2, hr2 | hr2, hpk2⟩, he⟩)
              · exact Or.inl (Or.inl h)
              · exact Or.inl (Or.inr he)
              · exact Or.inr ⟨⟨r2, hr2, hpk2⟩, he⟩
          · simp only [if_neg hk, List.mem_cons]
            constructor
            · rintro (h | ⟨⟨r2, hr2, hpk2⟩, he⟩)
              · exact Or.inl h
              · exact Or.inr ⟨⟨r2, Or.inr hr2, hpk2⟩, he⟩
            · rintro (h | ⟨⟨r2, hr2 | hr2, hpk2⟩, he⟩)
              · exact Or.inl h
              · subst hr2
                rw [hpk] at hpk2
                exact absurd (Option.some_inj.mp hpk2) hk
              · exact Or.inr ⟨⟨r2, hr2, hpk2⟩, he⟩

theorem ecListOf_processBatchesAux :
    ∀ (bs : List Batch) (st : CPState) (k e : String),
      e ∈ ecListOf (bs.foldl processBatch st) k ↔
        e ∈ ecListOf st k ∨
          ∃ b ∈ bs, (∃ r ∈ b.records, pairKeyOf r = some k) ∧
            e = exchangeKeyOf b.blockchain b.dex k
  | [], st, k, e => by simp
  | b :: bs, st, k, e => by
      rw [List.foldl_cons, ecListOf_processBatchesAux bs _ k e]
      show e ∈ ecListOf (b.records.foldl (processRecord b.blockchain b.dex) st) k ∨ _ ↔ _
      rw [ecListOf_processRecords b.blockchain b.dex b.records st k e]
      simp only [List.mem_cons]
      constructor
      · rintro ((h | ⟨hr, he⟩) | ⟨b2, hb2, hr2, he2⟩)
        · exact Or.inl h
        · exact Or.inr ⟨b, Or.inl rfl, hr, he⟩
        · exact Or.inr ⟨b2, Or.inr hb2, hr2, he2⟩
      · rintro (h | ⟨b2, hb2 | hb2, hr2, he2⟩)
        · exact Or.inl (Or.inl h)
        · subst hb2
          exact Or.inl (Or.inr ⟨hr2, he2⟩)
        · exact Or.inr ⟨b2, hb2, hr2, he2⟩

theorem ecListOf_nodup_records (ch dex : String) :
    ∀ (rs : List TradeRecord) (st : CPState),
      (∀ k, (ecListOf st k).Nodup) →
      ∀ k, (ecListOf (rs.foldl (processRecord ch dex) st) k).Nodup
  | [], _, h, k => h k
  | r :: rs, st, h, k => by
      rw [List.foldl_cons]
      refine ecListOf_nodup_records ch dex rs _ ?_ k
      intro k2
      rw [ecListOf_processRecord]
      cases hrs : recordSymbols r with
      | none => exact h k2
      | some bq =>
          dsimp only
          by_cases hk : bq.1 ++ "/" ++ bq.2 = k2
          · rw [if_pos hk]
            exact nodup_addToSet _ _ (h k2)
          · rw [if_neg hk]
            exact h k2

theorem ecListOf_nodup_batches :
    ∀ (bs : List Batch) (st : CPState),
      (∀ k, (ecListOf st k).Nodup) →
      ∀ k, (ecListOf (bs.foldl processBatch st) k).Nodup
  | [], _, h, k => h k
  | b :: bs, st, h, k => by
      rw [List.foldl_cons]
      exact ecListOf_nodup_batches bs _
        (ecListOf_nodup_records b.blockchain b.dex b.records st h) k

/-- Claim C4: the diversity count of every pair key is the cardinality of
the deduplicated set of composite keys `blockchain-dex-pairKey` collected
for it — the same `(blockchain, dex)` quoting a pair repeatedly counts
once — and never exceeds the number of distinct `(blockchain, dex)`
combinations that contributed a valid record for that pair. -/
theorem c4_diversity_dedup_and_bound (bs : List Batch) (k : String) :
    (ecListOf (processBatches bs) k).Nodup ∧
    exchangeCountOf (processBatches bs) k =
      (ecListOf (processBatches bs) k).toFinset.card ∧
    (∀ e, e ∈ ecListOf (processBatches bs) k ↔
      ∃ b ∈ bs, contributesTo b k = true ∧ e = exchangeKeyOf b.blockchain b.dex k) ∧
    exchangeCountOf (processBatches bs) k ≤ (contributingCombos bs k).length := by
  have hinit : ∀ k2, (ecListOf initCPState k2).Nodup := fun _ => List.Pairwise.nil
  have hnd : (ecListOf (processBatches bs) k).Nodup :=
    ecListOf_nodup_batches bs initCPState hinit k
  have hmem : ∀ e, e ∈ ecListOf (processBatches bs) k ↔
      ∃ b ∈ bs, contributesTo b k = true ∧ e = exchangeKeyOf b.blockchain b.dex k := by
    intro e
    rw [show processBatches bs = bs.foldl processBatch initCPState from rfl,
      ecListOf_processBatchesAux bs initCPState k e]
    simp [ecListOf, initCPState, alGet, contributesTo]
  have hcard : exchangeCountOf (processBatches bs) k =
      (ecListOf (processBatches bs) k).toFinset.card := by
    rw [List.toFinset_card_of_nodup hnd]
    rfl
  refine ⟨hnd, hcard, hmem, ?_⟩
  have hsub : (ecListOf (processBatches bs) k).toFinset ⊆
      ((contributingCombos bs k).map (fun p => exchangeKeyOf p.1 p.2 k)).toFinset := by
    intro e he
    rcases (hmem e).mp (List.mem_toFinset.mp he) with ⟨b, hb, hcon, rfl⟩
    refine List.mem_toFinset.mpr (List.mem_map.mpr ⟨(b.blockchain, b.dex), ?_, rfl⟩)
    exact List.mem_dedup.mpr (List.mem_map.mpr ⟨b, List.mem_filter.mpr ⟨hb, hcon⟩, rfl⟩)
  have himg : ((contributingCombos bs k).map (fun p => exchangeKeyOf p.1 p.2 k)).toFinset =
      (contributingCombos bs k).toFinset.image (fun p => exchangeKeyOf p.1 p.2 k) := by
    ext e
    simp
  calc exchangeCountOf (processBatches bs) k
      = (ecListOf (processBatches bs) k).toFinset.card := hcard
    _ ≤ ((contributingCombos bs k).map (fun p => exchangeKeyOf p.1 p.2 k)).toFinset.card :=
        Finset.card_le_card hsub
    _ = ((contributingCombos bs k).toFinset.image (fun p => exchangeKeyOf p.1 p.2 k)).card := by
        rw [himg]
    _ ≤ (contributingCombos bs k).toFinset.card := Finset.card_image_le
    _ ≤ (contributingCombos bs k).length := (contributingCombos bs k).toFinset_card_le

/-- Claim C5: `matchCommonPairs` output is exactly the aggregates whose
diversity count reaches `minVenueCount` (a permutation of the in-discovery-
order prefilter), ordered descending by diversity count, with equal counts
preserving first-discovered order (the per-count subsequences coincide with
the prefilter's). -/
theorem c5_filter_sort_characterization (bs : List Batch) (minVenueCount : Nat) :
    List.Perm (getCommonPairs minVenueCount bs)
      (commonPairsPrefilter minVenueCount (processBatches bs)) ∧
    List.Pairwise
      (fun a b => exchangeCountOf (processBatches bs) b.pair ≤
        exchangeCountOf (processBatches bs) a.pair)
      (getCommonPairs minVenueCount bs) ∧
    (∀ c : Nat,
      (getCommonPairs minVenueCount bs).filter
          (fun pd => decide (exchangeCountOf (processBatches bs) pd.pair = c)) =
        (commonPairsPrefilter minVenueCount (processBatches bs)).filter
          (fun pd => decide (exchangeCountOf (processBatches bs) pd.pair = c))) ∧
    (∀ pd, pd ∈ getCommonPairs minVenueCount bs ↔
      ∃ k, (k, pd) ∈ (processBatches bs).pairDataMap ∧
        minVenueCount ≤ exchangeCountOf (processBatches bs) k) := by
  refine ⟨perm_stableSortDesc _ _, pairwise_stableSortDesc _ _,
    fun c => filter_stableSortDesc _ c _, ?_⟩
  intro pd
  unfold getCommonPairs commonPairsFrom
  rw [(perm_stableSortDesc (fun pd2 => exchangeCountOf (processBatches bs) pd2.pair)
    (commonPairsPrefilter minVenueCount (processBatches bs))).mem_iff]
  unfold commonPairsPrefilter
  rw [List.mem_filterMap]
  constructor
  · rintro ⟨kv, hkv, heq⟩
    by_cases hc : minVenueCount ≤ exchangeCountOf (processBatches bs) kv.1
    · rw [if_pos hc] at heq
      cases heq
      exact ⟨kv.1, hkv, hc⟩
    · rw [if_neg hc] at heq
      cases heq
  · rintro ⟨k, hmem, hc⟩
    exact ⟨(k, pd), hmem, by rw [if_pos hc]⟩

theorem processRecord_invalid (ch dex : String) (st : CPState) (r : TradeRecord)
    (h : recordSymbols r = none) : processRecord ch dex st r = st := by
  unfold processRecord
  rw [h]

/-- Claim C7: a record with a falsy base or quote symbol is skipped
silently — processing a batch containing it equals processing the batch
without it, so every other record is still aggregated. -/
theorem c7_malformed_record_skipped (ch dex : String) (st : CPState)
    (pre post : List TradeRecord) (r : TradeRecord)
    (h : truthySymbol r.baseCurrency = none ∨ truthySymbol r.quoteCurrency = none) :
    processBatch st ⟨ch, dex, pre ++ r :: post⟩ = processBatch st ⟨ch, dex, pre ++ post⟩ := by
  have hrs : recordSymbols r = none := by
    unfold recordSymbols
    rcases h with h | h
    · rw [h]
    · rw [h]
      cases truthySymbol r.baseCurrency <;> rfl
  show (pre ++ r :: post).foldl (processRecord ch dex) st =
    (pre ++ post).foldl (processRecord ch dex) st
  rw [List.foldl_append, List.foldl_append, List.foldl_cons,
    processRecord_invalid ch dex _ r hrs]

/-- Witness for C7: dropping the symbol-less `recBad` from a concrete batch
leaves processing unchanged. -/
theorem c7_witness :
    (truthySymbol recBad.baseCurrency = none ∨ truthySymbol recBad.quoteCurrency = none) ∧
    processBatch initCPState ⟨"ethereum", "uniswap", [recA] ++ recBad :: [recB]⟩ =
      processBatch initCPState ⟨"ethereum", "uniswap", [recA] ++ [recB]⟩ :=
  ⟨Or.inr rfl,
   c7_malformed_record_skipped "ethereum" "uniswap" initCPState [recA] [recB] recBad
     (Or.inr rfl)⟩

/-- Counterexample to claim C8: with two valid ETH/USDT records whose
current price snapshots are 1 (first) and 2 (latest), the stored aggregate
retains the first snapshot, so the latest-seen snapshot does not win. -/
theorem c8_counterexample :
    ((alGet "ETH/USDT"
        (processBatches [⟨"ethereum", "uniswap", [recA, recB]⟩]).pairDataMap).map
      (fun pd => pd.priceData.current) = some 1) ∧
    ¬ ((alGet "ETH/USDT"
        (processBatches [⟨"ethereum", "uniswap", [recA, recB]⟩]).pairDataMap).map
      (fun pd => pd.priceData.current) = some 2) := by
  have heval : (alGet "ETH/USDT"
      (processBatches [⟨"ethereum", "uniswap", [recA, recB]⟩]).pairDataMap).map
      (fun pd => pd.priceData.current) = some 1 := by rfl
  refine ⟨heval, ?_⟩
  rw [heval]
  intro h
  exact absurd (Option.some_inj.mp h) (by norm_num)

/-- Claim C8 as amended: when a valid record merges into an existing
aggregate, only the blockchain set, the exchange list and the running
volume total change; the price snapshot (and token metadata) are retained
from the first record that created the aggregate. -/
theorem c8_amended_merge_frame (ch dex : String) (st : CPState) (r : TradeRecord)
    (bq : String × String) (pd : PairData)
    (hr : recordSymbols r = some bq)
    (hpd : alGet (bq.1 ++ "/" ++ bq.2) st.pairDataMap = some pd) :
    alGet (bq.1 ++ "/" ++ bq.2) (processRecord ch dex st r).pairDataMap =
      some { pd with
             blockchains := addToSet ch pd.blockchains
           , exchanges := addToSet dex pd.exchanges
           , volumeTotal := pd.volumeTotal + qOr r.usd 0 } := by
  simp only [processRecord, hr, hpd]
  exact alGet_alSet_self _ _ _

/-- Witness for C8's amended statement: merging `recB` into the explicit
state `stETH` updates only chains, exchanges and volume. -/
theorem c8_witness :
    recordSymbols recB = some ("ETH", "USDT") ∧
    alGet ("ETH" ++ "/" ++ "USDT") (processRecord "bnb" "pancake" stETH recB).pairDataMap =
      some { pdETH with
             blockchains := addToSet "bnb" pdETH.blockchains
           , exchanges := addToSet "pancake" pdETH.exchanges
           , volumeTotal := pdETH.volumeTotal + qOr recB.usd 0 } :=
  ⟨rfl, c8_amended_merge_frame "bnb" "pancake" stETH recB ("ETH", "USDT") pdETH rfl rfl⟩

/- ### Lemmas: the venue catalog builder -/

theorem padWithDefaults_eq (n : Nat) :
    ∀ (defaults pairs : List String), defaults.Nodup →
      padWithDefaults n pairs defaults =
        pairs ++ (defaults.filter (fun p => decide (p ∉ pairs))).take (n - pairs.length)
  | [], pairs, _ => by simp [padWithDefaults]
  | d :: ds, pairs, h => by
      rcases List.nodup_cons.mp h with ⟨hd, hds⟩
      unfold padWithDefaults
      by_cases hn : n ≤ pairs.length
      · rw [if_pos hn, padWithDefaults_eq n ds pairs hds,
          Nat.sub_eq_zero_of_le hn]
        simp
      · rw [if_neg hn]
        by_cases hmem : d ∈ pairs
        · rw [if_pos hmem, padWithDefaults_eq n ds pairs hds, List.filter_cons]
          simp [hmem]
        · rw [if_neg hmem, padWithDefaults_eq n ds (pairs ++ [d]) hds, List.filter_cons]
          have hfil : ds.filter (fun p => decide (p ∉ pairs ++ [d])) =
              ds.filter (fun p => decide (p ∉ pairs)) := by
            apply List.filter_congr
            intro a ha
            have hne : a ≠ d := fun heq => hd (heq ▸ ha)
            simp [List.mem_append, hne]
          rw [hfil]
          have hlen : (pairs ++ [d]).length = pairs.length + 1 := by simp
          rw [hlen]
          have hsub : n - pairs.length = (n - (pairs.length + 1)) + 1 := by omega
          simp only [hmem, not_false_eq_true, decide_True, if_true]
          rw [hsub, List.take_succ_cons]
          simp

theorem keys_nodup_addTicker (m : List (String × ℚ)) (st2 : String × Ticker)
    (h : (m.map Prod.fst).Nodup) : ((addTicker m st2).map Prod.fst).Nodup := by
  unfold addTicker
  by_cases h1 : !qTruthy st2.2.quoteVolume && !qTruthy st2.2.baseVolume
  · rw [if_pos h1]
    exact h
  · rw [if_neg h1]
    by_cases h2 : slashParts st2.1 ≠ 2
    · rw [if_pos h2]
      exact h
    · rw [if_neg h2]
      cases tickerVolume st2.2 with
      | none => exact h
      | some v =>
          dsimp only
          by_cases h3 : v = 0 ∨ v < 10000
          · rw [if_pos h3]
            exact h
          · rw [if_neg h3]
            exact keys_nodup_alSet _ _ m h

theorem keys_nodup_addTickers :
    ∀ (ts : List (String × Ticker)) (m : List (String × ℚ)),
      (m.map Prod.fst).Nodup → ((ts.foldl addTicker m).map Prod.fst).Nodup
  | [], _, h => h
  | t :: ts, m, h => by
      rw [List.foldl_cons]
      exact keys_nodup_addTickers ts _ (keys_nodup_addTicker m t h)

theorem keys_nodup_volumeMapAux :
    ∀ (exchanges : List (String × Option (List (String × Ticker)))) (m : List (String × ℚ)),
      (m.map Prod.fst).Nodup →
      ((exchanges.foldl
          (fun m e =>
            match e.2 with
            | none => m
            | some ts => ts.foldl addTicker m)
          m).map Prod.fst).Nodup
  | [], _, h => h
  | e :: ex, m, h => by
      rw [List.foldl_cons]
      cases he : e.2 with
      | none => exact keys_nodup_volumeMapAux ex _ h
      | some ts => exact keys_nodup_volumeMapAux ex _ (keys_nodup_addTickers ts m h)

theorem discoveredPairs_nodup (exchanges : List (String × Option (List (String × Ticker))))
    (topPairs : Nat) : (discoveredPairs exchanges topPairs).Nodup := by
  have h0 : ((volumeMap exchanges).map Prod.fst).Nodup :=
    keys_nodup_volumeMapAux exchanges [] List.Pairwise.nil
  have hperm :
      List.Perm ((stableSortDesc (fun kv => kv.2) (volumeMap exchanges)).map Prod.fst)
        ((volumeMap exchanges).map Prod.fst) :=
    (perm_stableSortDesc (fun kv => kv.2) (volumeMap exchanges)).map Prod.fst
  have hsorted : ((stableSortDesc (fun kv => kv.2) (volumeMap exchanges)).map Prod.fst).Nodup :=
    hperm.nodup_iff.mpr h0
  unfold discoveredPairs
  rw [List.map_take]
  exact List.Nodup.sublist (List.take_sublist _ _) hsorted

/-- Claim C6: when volume discovery finds fewer than `targetCount` pairs,
the returned list is the discovered list padded with defaults not already
present, has no duplicate pair keys, and reaches `targetCount` unless the
default list is exhausted first. -/
theorem c6_fallback_completion (exchanges : List (String × Option (List (String × Ticker))))
    (topPairs : Nat)
    (h : (discoveredPairs exchanges topPairs).length < topPairs) :
    identifyTopPairs exchanges topPairs =
      discoveredPairs exchanges topPairs ++
        (defaultPairs.filter
          (fun p => decide (p ∉ discoveredPairs exchanges topPairs))).take
          (topPairs - (discoveredPairs exchanges topPairs).length) ∧
    (identifyTopPairs exchanges topPairs).Nodup ∧
    (identifyTopPairs exchanges topPairs).length =
      min topPairs ((discoveredPairs exchanges topPairs).length +
        (defaultPairs.filter
          (fun p => decide (p ∉ discoveredPairs exchanges topPairs))).length) := by
  have hnd : defaultPairs.Nodup := by decide
  have hid : identifyTopPairs exchanges topPairs =
      padWithDefaults topPairs (discoveredPairs exchanges topPairs) defaultPairs := by
    unfold identifyTopPairs
    rw [if_pos h]
  have heq := padWithDefaults_eq topPairs defaultPairs (discoveredPairs exchanges topPairs) hnd
  refine ⟨by rw [hid, heq], ?_, ?_⟩
  · rw [hid, heq, List.nodup_append]
    refine ⟨discoveredPairs_nodup exchanges topPairs, ?_, ?_⟩
    · exact List.Nodup.sublist (List.take_sublist _ _) (List.Nodup.filter _ hnd)
    · intro a ha hb
      have hf := List.mem_filter.mp (List.take_subset _ _ hb)
      exact (of_decide_eq_true hf.2) ha
  · rw [hid, heq, List.length_append, List.length_take]
    omega

/-- Witness for C6 with no venues discovered: the result is pure fallback
padding. -/
theorem c6_witness :
    (discoveredPairs [] 3).length < 3 ∧
    identifyTopPairs [] 3 =
      discoveredPairs [] 3 ++
        (defaultPairs.filter (fun p => decide (p ∉ discoveredPairs [] 3))).take
          (3 - (discoveredPairs [] 3).length) :=
  ⟨by decide, (c6_fallback_completion [] 3 (by decide)).1⟩

end Arb
